import Mathlib

/-!
Shallow embedding of files2Joplin.py.

The program converts a flat directory of attachment files into Joplin RAW
records.  Pure string manipulations of the source (file-name splitting, link
construction, directory-separator normalization, timestamp formatting) are
translated into Lean functions; the file-system effects of the source
(existence checks, mkdir, file writes, moves) are modelled by a path-set
state plus an explicit trace of mutating operations.  Paths are plain
strings.  After os.chdir into the input directory, the source addresses
everything it writes by paths relative to that directory ("joplin/...") or
by the absolute directories of the manifest, while the note namespace
directory (joplin_directory) is only ever mentioned in os.path.exists
checks; the model keeps exactly those path strings.
-/

namespace Files2Joplin

/-! ## Python string primitives -/

/-- Python str.split(sep) for a one-character separator, on character lists.
"".split(sep) is [""], hence the base case [[]]. -/
def splitSep (sep : Char) : List Char → List (List Char)
  | [] => [[]]
  | c :: cs =>
    if c = sep then [] :: splitSep sep cs
    else
      match splitSep sep cs with
      | [] => [[c]]
      | g :: gs => (c :: g) :: gs

/-- Python sep.join, on character lists. -/
def joinSep (sep : Char) : List (List Char) → List Char
  | [] => []
  | [g] => g
  | g :: g2 :: gs => g ++ sep :: joinSep sep (g2 :: gs)

/-- Python str.strip(): remove leading and trailing whitespace. -/
def pyStrip (s : String) : String :=
  String.mk (((s.data.dropWhile Char.isWhitespace).reverse.dropWhile Char.isWhitespace).reverse)

/-- Python file.replace(" ", "%20"): percent-encode spaces, nothing else. -/
def escapeSpaces (s : String) : String :=
  String.mk (s.data.flatMap fun c => if c = ' ' then ['%', '2', '0'] else [c])

/-- Boolean string-prefix test used to state link-markup facts. -/
def strStarts (pre s : String) : Bool :=
  pre.data.isPrefixOf s.data

/-! ## split_file_name (source lines 43-63)

Python: split = file.split(.); extension = "." + split[-1];
file_name = ".".join(split[:-1]); returns (extension, file_name). -/

def split_file_name (file : String) : String × String :=
  let split := splitSep '.' file.data
  (String.mk ('.' :: split.getLastD []), String.mk (joinSep '.' split.dropLast))

/-! ## Timestamp (source line 270)

Python: datetime.now(timezone.utc).isoformat()[:23] + "Z".
For an aware UTC datetime, isoformat prints
YYYY-MM-DDTHH:MM:SS[.ffffff]+00:00 where the fractional part is omitted
exactly when microsecond == 0. -/

/-- Decimal rendering of a natural number, zero-padded to the given width. -/
def padZeros (w n : Nat) : String :=
  let s := toString n
  String.mk (List.replicate (w - s.data.length) '0') ++ s

/-- datetime.isoformat() of an aware UTC datetime with the given fields. -/
def pyIsoformatUTC (y mo d h mi s us : Nat) : String :=
  padZeros 4 y ++ "-" ++ padZeros 2 mo ++ "-" ++ padZeros 2 d ++ "T" ++
  padZeros 2 h ++ ":" ++ padZeros 2 mi ++ ":" ++ padZeros 2 s ++
  (if us = 0 then "" else "." ++ padZeros 6 us) ++ "+00:00"

/-- Python slicing s[:n] by characters. -/
def takeChars (n : Nat) (s : String) : String :=
  String.mk (s.data.take n)

/-- The run timestamp: isoformat()[:23] + "Z". -/
def joplinTimestamp (y mo d h mi s us : Nat) : String :=
  takeChars 23 (pyIsoformatUTC y mo d h mi s us) ++ "Z"

/-- Checker for the documented format YYYY-MM-DDTHH:MM:SS.mmmZ. -/
def isJoplinTsFormat (s : String) : Bool :=
  match s.data with
  | [y1, y2, y3, y4, s1, m1, m2, s2, d1, d2, t1, h1, h2, c1, n1, n2, c2, e1, e2, dot,
     f1, f2, f3, z] =>
    ([y1, y2, y3, y4, m1, m2, d1, d2, h1, h2, n1, n2, e1, e2, f1, f2, f3].all Char.isDigit)
      && (s1 == '-') && (s2 == '-') && (t1 == 'T') && (c1 == ':') && (c2 == ':')
      && (dot == '.') && (z == 'Z')
  | _ => false

/-! ## Link markup (source lines 149-185) -/

/-- Image extensions get an embedding link, everything else a plain link
(source lines 149-153). -/
def linkStart (extension : String) : String :=
  if extension = ".png" ∨ extension = ".jpeg" ∨ extension = ".jpg" then "![" else "["

/-- Trailing-separator normalization of a manifest directory
(source lines 173-177): append a slash when the path contains one and does
not end with one, then likewise for a backslash on the possibly extended
path. -/
def appendBackslashStep (d1 : String) : String :=
  if '\\' ∈ d1.data ∧ d1.data.getLast? ≠ some '\\' then d1 ++ "\\" else d1

def normalizeDir (d : String) : String :=
  appendBackslashStep (if '/' ∈ d.data ∧ d.data.getLast? ≠ some '/' then d ++ "/" else d)

/-- The managed-mode link section of a note body (source line 158). -/
def joplinLinkSection (start file joplin_attach : String) : String :=
  start ++ file ++ "](:/" ++ joplin_attach ++ ")\n\n"

/-- One file:// link line (source line 183). -/
def fileLinkLine (start link_name dir_name fileEsc : String) : String :=
  start ++ link_name ++ "](file://" ++ dir_name ++ fileEsc ++ ")\n"

/-- Errors of the modelled run.  AssertionError on the existing output
directory is precondition; the unhandled exceptions of the source keep
their Python names; fuelExhausted stands for a non-terminating retry loop
and never occurs on the runs the theorems evaluate. -/
inductive Err
  | precondition
  | unboundLocal
  | indexError
  | fileNotFound
  | fuelExhausted
deriving DecidableEq

/-- The file:// link lines of a note body, one per manifest entry (source
lines 167-183).  Entry index 1 raises IndexError when a manifest line had
no comma.  The file name is space-escaped (the source rebinds file before
each write; the replacement is idempotent, so every line sees the same
escaped name). -/
def fileLinkLines (start fileEsc : String) : List (List String) → Except Err (List String)
  | [] => .ok []
  | a :: rest =>
    match a.get? 0, a.get? 1 with
    | some ln, some dn =>
      match fileLinkLines start fileEsc rest with
      | .ok ls => .ok (fileLinkLine start (pyStrip ln) (normalizeDir (pyStrip dn)) fileEsc :: ls)
      | .error e => .error e
    | _, _ => .error .indexError

/-! ## Record contents (source lines 66-115 and 144-219) -/

/-- The attachment markdown record written by write_attachment_file. -/
def attachmentContent (file rand_attach now mimetype : String) (file_size : Nat) : String :=
  file ++ "\n\n" ++
  "id: " ++ rand_attach ++ "\n" ++
  "mime: " ++ mimetype ++ "\n" ++
  "filename: " ++ file ++ "\n" ++
  "created_time: " ++ now ++ "\n" ++
  "updated_time: " ++ now ++ "\n" ++
  "user_created_time: " ++ now ++ "\n" ++
  "user_updated_time: " ++ now ++ "\n" ++
  "file_extension: \n" ++
  "encryption_cipher_text: \n" ++
  "encryption_applied: 0\n" ++
  "encryption_blob_encrypted: 0\n" ++
  "size: " ++ toString file_size ++ "\n" ++
  "type_: 4"

/-- The fixed metadata block of a note record (source lines 188-219). -/
def noteMetadata (rand_md now : String) : String :=
  "id: " ++ rand_md ++ "\n" ++
  "parent_id: \n" ++
  "created_time: " ++ now ++ "\n" ++
  "updated_time: " ++ now ++ "\n" ++
  "is_conflict: 0\n" ++
  "latitude: 0.00000000\n" ++
  "longitude: 0.00000000\n" ++
  "altitude: 0.0000\n" ++
  "author: \n" ++
  "source_url: \n" ++
  "is_todo: 0\n" ++
  "todo_due: 0\n" ++
  "todo_completed: 0\n" ++
  "source: joplin-desktop\n" ++
  "source_application: net.cozic.joplin-desktop\n" ++
  "application_data:\n" ++
  "order: 0\n" ++
  "user_created_time: " ++ now ++ "\n" ++
  "user_updated_time: " ++ now ++ "\n" ++
  "encryption_cipher_text: \n" ++
  "encryption_applied: 0\n" ++
  "markup_language: 1\n" ++
  "type_: 1"

/-- Concatenation of the lines written sequentially into an open file. -/
def concatAll (ls : List String) : String :=
  String.mk (ls.map String.data).flatten

/-! ## File-system model

The file system is the set of existing paths, as a list of strings.  All
paths the program writes are relative to the input directory (after
os.chdir) except the manifest directories, which are absolute; the note
namespace directory is absolute as well (the CLI documents it as an
absolute path).  Mutating operations are recorded in a trace. -/

inductive Op
  | mkdir (p : String)
  | writeFile (p : String) (content : String)
  | move (src dst : String)
deriving DecidableEq

def applyOp (fs : List String) : Op → List String
  | .mkdir p => p :: fs
  | .writeFile p _ => p :: fs
  | .move src dst => dst :: fs.erase src

def applyOps (fs : List String) (ops : List Op) : List String :=
  ops.foldl applyOp fs

/-- The paths an operation mutates (a move deletes its source). -/
def mutTargets : Op → List String
  | .mkdir p => [p]
  | .writeFile p _ => [p]
  | .move src dst => [src, dst]

def isWriteOp : Op → Bool
  | .writeFile _ _ => true
  | _ => false

/-- Record files written into the output directory. -/
def countRecordWrites (ops : List Op) : Nat :=
  (ops.filter isWriteOp).length

inductive LinkType
  | managed
  | file
deriving DecidableEq

/-- External collaborators of one run: the CLI arguments, the directory
listings, the manifest file contents (none when the file is missing), the
randomness stream feeding os.urandom, the mimetypes table and os.path.getsize. -/
structure Env where
  joplin_directory : String
  linkType : LinkType
  manifest : Option (List String)
  inputNames : List String
  fs : List String
  stream : Nat → String
  mime : String → Option String
  sizeOf : String → Nat
  now : String

/-- Mutable state threaded through a run: the file system, the randomness
cursor, the identifiers allocated so far, the operation trace, and the
function-local file_new of main (None models the unassigned variable). -/
structure RunSt where
  fs : List String
  k : Nat
  ids : List String
  trace : List Op
  fileNew : Option String

def emit (st : RunSt) (op : Op) : RunSt :=
  { st with fs := applyOp st.fs op, trace := st.trace ++ [op] }

/-- glob.glob("*.*"): names containing a period, hidden names excluded. -/
def globMatch (n : String) : Bool :=
  !(n.data.head? == some '.') && n.data.contains '.'

/-- get_attach_dir_list (source lines 222-242): one entry per manifest
line, each line stripped then comma-split; no validation whatsoever. -/
def get_attach_dir_list (lines : List String) : List (List String) :=
  lines.map fun l => (splitSep ',' (pyStrip l).data).map String.mk

/-- The identifier retry loop (source lines 139-142 and 277-280): draw from
the randomness stream until the name is not present as <id>.md inside the
note namespace directory. -/
def allocLoop (jd : String) (fs : List String) (stream : Nat → String) :
    Nat → Nat → Option (String × Nat)
  | 0, _ => none
  | fuel + 1, k =>
    if (jd ++ "/" ++ stream k ++ ".md") ∈ fs then allocLoop jd fs stream fuel (k + 1)
    else some (stream k, k + 1)

/-- The rename-on-collision loop of main (source lines 296-301).  The
initial fileNew argument is the current value of the function-local
file_new, which survives from earlier loop iterations and is returned
unchanged when no collision occurs. -/
def renameLoop (directory filePre file_ext : String) (fs : List String) :
    Nat → String → Nat → Option String → Option (String × Option String)
  | 0, _, _, _ => none
  | fuel + 1, file_path, cnt, file_new =>
    if file_path ∈ fs then
      renameLoop directory filePre file_ext fs fuel
        (directory ++ "/" ++ (filePre ++ "_" ++ toString cnt ++ "." ++ file_ext))
        (cnt + 1) (some (filePre ++ "_" ++ toString cnt ++ "." ++ file_ext))
    else some (file_path, file_new)

/-! ## write_attachment_file (source lines 66-115) -/

def write_attachment_file (env : Env) (st : RunSt) (file rand_attach : String) : RunSt :=
  let extension := (split_file_name file).1
  let file_size := env.sizeOf file
  let st1 := emit st (.move file ("joplin/resources/" ++ rand_attach))
  emit st1 (.writeFile ("joplin/" ++ rand_attach ++ ".md")
    (attachmentContent file rand_attach env.now ((env.mime extension).getD "") file_size))

/-! ## write_note_file (source lines 118-219)

The note file is modelled as one write of its full contents; when link
generation raises IndexError partway through, the partially written note
file of the source is not represented (no claim observes it).  The assert
on the two optional arguments is not modelled: both call sites of main
pass exactly one of them. -/

def write_note_file (env : Env) (fuel : Nat) (st : RunSt) (file : String)
    (joplin_attach : Option String) (file_attach_list : Option (List (List String))) :
    RunSt × Except Err Unit :=
  let extension := (split_file_name file).1
  let file_name := (split_file_name file).2
  match allocLoop env.joplin_directory st.fs env.stream fuel st.k with
  | none => (st, .error .fuelExhausted)
  | some (rand_md, k1) =>
    let st1 : RunSt := { st with k := k1, ids := st.ids ++ [rand_md] }
    let start := linkStart extension
    match joplin_attach with
    | some attach =>
      (emit st1 (.writeFile ("joplin/" ++ rand_md ++ ".md")
        (file_name ++ "\n\n" ++ joplinLinkSection start file attach ++
          noteMetadata rand_md env.now)), .ok ())
    | none =>
      let adl := file_attach_list.getD []
      match adl.head?.bind (fun a => a.get? 1) with
      | none => (st1, .error .indexError)
      | some d0 =>
        let dir_name := pyStrip d0
        let st2 := if dir_name ∈ st1.fs then st1 else emit st1 (.mkdir dir_name)
        match fileLinkLines start (escapeSpaces file) adl with
        | .error e => (st2, .error e)
        | .ok lines =>
          (emit st2 (.writeFile ("joplin/" ++ rand_md ++ ".md")
            (file_name ++ "\n\n" ++ concatAll lines ++ "\n" ++
              noteMetadata rand_md env.now)), .ok ())

/-! ## main (source lines 245-307) -/

/-- One managed-mode loop iteration (source lines 275-286). -/
def processManaged (env : Env) (fuel : Nat) (st : RunSt) (file : String) :
    RunSt × Except Err Unit :=
  match allocLoop env.joplin_directory st.fs env.stream fuel st.k with
  | none => (st, .error .fuelExhausted)
  | some (rand_attach, k1) =>
    let st1 : RunSt := { st with k := k1, ids := st.ids ++ [rand_attach] }
    let st2 := write_attachment_file env st1 file rand_attach
    write_note_file env fuel st2 file (some rand_attach) none

/-- One file-mode loop iteration (source lines 288-307), including the
file_new guard that is reached with an unassigned variable when no
collision occurred. -/
def processFilePath (env : Env) (fuel : Nat) (adl : List (List String)) (st : RunSt)
    (file : String) : RunSt × Except Err Unit :=
  let file_split := splitSep '.' file.data
  let filePre := String.mk (joinSep '.' file_split.dropLast)
  let file_ext := String.mk (file_split.getLastD [])
  match adl.head?.bind (fun a => a.get? 1) with
  | none => (st, .error .indexError)
  | some d0 =>
    let directory := pyStrip d0
    match renameLoop directory filePre file_ext st.fs fuel
        (directory ++ "/" ++ file) 1 st.fileNew with
    | none => (st, .error .fuelExhausted)
    | some (file_path, file_new) =>
      let st1 : RunSt := { st with fileNew := file_new }
      let st2 := emit st1 (.move file file_path)
      match file_new with
      | none => (st2, .error .unboundLocal)
      | some s =>
        let file1 := if s = "" then file else s
        write_note_file env fuel st2 file1 none (some adl)

def runLoop (env : Env) (fuel : Nat) (adl : Option (List (List String))) :
    List String → RunSt → RunSt × Except Err Unit
  | [], st => (st, .ok ())
  | f :: rest, st =>
    let step :=
      match env.linkType with
      | .managed => processManaged env fuel st f
      | .file => processFilePath env fuel (adl.getD []) st f
    match step with
    | (st1, .ok _) => runLoop env fuel adl rest st1
    | (st1, .error e) => (st1, .error e)

structure RunOut where
  result : Except Err Unit
  ids : List String
  trace : List Op
  fs : List String

/-- The whole run of main: read the manifest in file mode (a missing file
raises FileNotFoundError), list *.* in the input directory, stop when the
output directory exists, create the output layout, then convert each file. -/
def run (fuel : Nat) (env : Env) : RunOut :=
  let adlE : Except Err (Option (List (List String))) :=
    match env.linkType with
    | .managed => .ok none
    | .file =>
      match env.manifest with
      | none => .error .fileNotFound
      | some lines => .ok (some (get_attach_dir_list lines))
  match adlE with
  | .error e => ⟨.error e, [], [], env.fs⟩
  | .ok adl =>
    let file_list := env.inputNames.filter globMatch
    if "joplin" ∈ env.fs then ⟨.error .precondition, [], [], env.fs⟩
    else
      let st0 : RunSt := ⟨env.fs, 0, [], [], none⟩
      let st1 := emit st0 (.mkdir "joplin")
      let st2 :=
        match env.linkType with
        | .managed => emit st1 (.mkdir "joplin/resources")
        | .file => st1
      let out := runLoop env fuel adl file_list st2
      ⟨out.2, out.1.ids, out.1.trace, out.1.fs⟩

deriving instance DecidableEq for Except

/-! ## Derived notions used by the theorems -/

def isSep (c : Char) : Bool := (c == '/') || (c == '\\')

/-- The path ends with exactly one trailing separator character. -/
def endsWithOneSep (s : String) : Bool :=
  match s.data.reverse with
  | [] => false
  | [c] => isSep c
  | c :: d :: _ => isSep c && !(isSep d)

/-- The directory files are moved into in file mode: the stripped second
field of the first manifest entry (source line 295). -/
def firstDir (env : Env) : String :=
  match env.manifest with
  | none => ""
  | some lines => pyStrip (((get_attach_dir_list lines).head?.bind (fun a => a.get? 1)).getD "")

/-- The path is the note namespace directory itself or lies inside it. -/
def NsTouched (ns p : String) : Prop :=
  p = ns ∨ (ns ++ "/").data.isPrefixOf p.data = true

/-- st2 extends st1 by exactly the given operations: the trace grows by
them and the file system is their effect. -/
def StepOps (st1 st2 : RunSt) (ops : List Op) : Prop :=
  st2.trace = st1.trace ++ ops ∧ st2.fs = applyOps st1.fs ops

/-- The mutation targets the run is allowed to touch: the output directory
subtree, an input file (as a move source), or, in file mode, the first
manifest directory and its subtree. -/
def OkTarget (env : Env) (p : String) : Prop :=
  p = "joplin" ∨ ("joplin/").data.isPrefixOf p.data = true ∨ p ∈ env.inputNames
    ∨ (env.linkType = .file
        ∧ (p = firstDir env ∨ (firstDir env ++ "/").data.isPrefixOf p.data = true))

/-! ## Concrete environments used by the individual claims -/

/-- C1: file mode, one file, empty target directory (no collision). -/
def envC1a : Env :=
  ⟨"/ns", .file, some ["work,/home/u/work"], ["a.txt"], [],
    (fun _ => "id01"), (fun _ => none), (fun _ => 0), "T"⟩

/-- C1: file mode, one file, target directory already holds a.txt. -/
def envC1b : Env :=
  ⟨"/ns", .file, some ["work,/home/u/work"], ["a.txt"],
    ["/home/u/work", "/home/u/work/a.txt"],
    (fun _ => "id01"), (fun _ => none), (fun _ => 0), "T"⟩

/-- C1: file mode, target directory already holds a.txt and a_1.txt. -/
def envC1c : Env :=
  ⟨"/ns", .file, some ["work,/home/u/work"], ["a.txt"],
    ["/home/u/work", "/home/u/work/a.txt", "/home/u/work/a_1.txt"],
    (fun _ => "id01"), (fun _ => none), (fun _ => 0), "T"⟩

/-- C2: managed mode, one file, a randomness stream that repeats. -/
def envC2 : Env :=
  ⟨"/ns", .managed, none, ["a.txt"], [], (fun _ => "aa"),
    (fun _ => none), (fun _ => 0), "T"⟩

/-- C3: managed mode, one top-level file whose name has no period. -/
def envC3 : Env :=
  ⟨"/ns", .managed, none, ["README"], [], (fun _ => "aa"),
    (fun _ => none), (fun _ => 0), "T"⟩

/-- C3 witness: managed mode, one matching file. -/
def envC3w : Env :=
  ⟨"/ns", .managed, none, ["a.txt"], [], (fun _ => "aa"),
    (fun _ => none), (fun _ => 0), "T"⟩

/-- C7: file mode, a manifest line without a comma, no input files. -/
def envC7 : Env :=
  ⟨"/ns", .file, some ["nocomma"], [], [], (fun _ => "aa"),
    (fun _ => none), (fun _ => 0), "T"⟩

/-- C7: file mode, a manifest line without a comma, one input file. -/
def envC7b : Env :=
  ⟨"/ns", .file, some ["nocomma"], ["a.txt"], [], (fun _ => "aa"),
    (fun _ => none), (fun _ => 0), "T"⟩

/-- C7 witness: file mode with a missing manifest file. -/
def envC7c : Env :=
  ⟨"/ns", .file, none, ["a.txt"], [], (fun _ => "aa"),
    (fun _ => none), (fun _ => 0), "T"⟩

/-- C8 witness: the output directory already exists. -/
def envC8 : Env :=
  ⟨"/ns", .managed, none, ["a.txt"], ["joplin"], (fun _ => "aa"),
    (fun _ => none), (fun _ => 0), "T"⟩

/-- C10 witness: managed mode with a pre-existing namespace record. -/
def envC10 : Env :=
  ⟨"/ns", .managed, none, ["a.txt"], ["/ns/x.md"], (fun _ => "ab"),
    (fun _ => none), (fun _ => 0), "T"⟩

/-! ## Helper lemmas -/

theorem data_append (a b : String) : (a ++ b).data = a.data ++ b.data := rfl

theorem data_mk (l : List Char) : (String.mk l).data = l := rfl

theorem splitSep_ne_nil (sep : Char) (l : List Char) : splitSep sep l ≠ [] := by
  cases l with
  | nil => simp [splitSep]
  | cons c cs =>
    simp only [splitSep]
    split
    · simp
    · split
      · simp
      · simp

theorem joinSep_splitSep (sep : Char) (l : List Char) :
    joinSep sep (splitSep sep l) = l := by
  induction l with
  | nil => rfl
  | cons c cs ih =>
    simp only [splitSep]
    by_cases hc : c = sep
    · subst hc
      simp only [if_pos rfl]
      rcases hs : splitSep c cs with _ | ⟨g, gs⟩
      · exact absurd hs (splitSep_ne_nil c cs)
      · rw [hs] at ih
        simp [joinSep, ih]
    · simp only [if_neg hc]
      rcases hs : splitSep sep cs with _ | ⟨g, gs⟩
      · exact absurd hs (splitSep_ne_nil sep cs)
      · rw [hs] at ih
        cases gs with
        | nil => simpa [joinSep] using ih
        | cons g2 gs2 => simpa [joinSep] using ih

theorem two_le_length_splitSep (sep : Char) (l : List Char) (h : sep ∈ l) :
    2 ≤ (splitSep sep l).length := by
  induction l with
  | nil => cases h
  | cons c cs ih =>
    by_cases hc : c = sep
    · subst hc
      have h1 : splitSep c (c :: cs) = [] :: splitSep c cs := by
        simp [splitSep]
      rw [h1]
      have hne := splitSep_ne_nil c cs
      have hlen : 0 < (splitSep c cs).length := List.length_pos.mpr hne
      simp only [List.length_cons]
      omega
    · have hmem : sep ∈ cs := by
        rcases List.mem_cons.mp h with h1 | h1
        · exact absurd h1.symm hc
        · exact h1
      have h2 := ih hmem
      rcases hs : splitSep sep cs with _ | ⟨g, gs⟩
      · exact absurd hs (splitSep_ne_nil sep cs)
      · have h1 : splitSep sep (c :: cs) = (c :: g) :: gs := by
          simp [splitSep, if_neg hc, hs]
        rw [h1]
        rw [hs] at h2
        simpa using h2

/-- joinSep over a list with its last piece made explicit. -/
theorem joinSep_concat (sep : Char) (init : List (List Char)) (last : List Char)
    (h : init ≠ []) :
    joinSep sep (init ++ [last]) = joinSep sep init ++ sep :: last := by
  induction init with
  | nil => exact absurd rfl h
  | cons g1 rest ih =>
    cases rest with
    | nil => rfl
    | cons g2 rest2 =>
      have h2 := ih (by simp)
      show g1 ++ sep :: joinSep sep ((g2 :: rest2) ++ [last])
          = (g1 ++ sep :: joinSep sep (g2 :: rest2)) ++ sep :: last
      rw [h2, List.append_assoc]
      simp

/-! ## C4 — split/rejoin round trip -/

/-- C4: for every file name that has an extension separator (the claim
quantifies over names of shape name.extension, with zero or more further
interior periods), splitting with split_file_name and rejoining the two
parts reproduces the original name: file_name followed by the extension
(which carries the period) is the original string. -/
theorem c4_split_round_trip (f : String) (h : '.' ∈ f.data) :
    (split_file_name f).2 ++ (split_file_name f).1 = f := by
  have h2 := two_le_length_splitSep '.' f.data h
  rcases List.eq_nil_or_concat (splitSep '.' f.data) with hnil | ⟨init, last, heq⟩
  · rw [hnil] at h2
    simp at h2
  · rw [List.concat_eq_append] at heq
    have hinit : init ≠ [] := by
      intro hi
      rw [heq, hi] at h2
      simp at h2
    apply String.ext
    show (joinSep '.' (splitSep '.' f.data).dropLast ++
        ('.' :: (splitSep '.' f.data).getLastD [])) = f.data
    rw [heq, List.dropLast_concat, List.getLastD_concat]
    rw [← joinSep_concat '.' init last hinit, ← heq, joinSep_splitSep]

/-- C4 witness: a concrete round trip on a name with an interior period. -/
theorem c4_split_round_trip_witness :
    ('.' ∈ ("a.b.txt" : String).data)
      ∧ (split_file_name "a.b.txt").2 ++ (split_file_name "a.b.txt").1 = "a.b.txt" :=
  ⟨by decide, c4_split_round_trip "a.b.txt" (by decide)⟩

/-! ## C9 — timestamp format -/

/-- C9: the run timestamp isoformat()[:23] + Z meets the documented
YYYY-MM-DDTHH:MM:SS.mmmZ format on an instant with a non-zero microsecond
field, but on an instant whose microsecond field is zero Python isoformat
omits the fractional part, the 23-character slice swallows part of the
+00:00 offset, and the result is the malformed 2020-01-02T03:04:05+00:Z. -/
theorem c9_timestamp_code_bug :
    joplinTimestamp 2020 1 2 3 4 5 123456 = "2020-01-02T03:04:05.123Z"
    ∧ isJoplinTsFormat (joplinTimestamp 2020 1 2 3 4 5 123456) = true
    ∧ joplinTimestamp 2020 1 2 3 4 5 0 = "2020-01-02T03:04:05+00:Z"
    ∧ isJoplinTsFormat (joplinTimestamp 2020 1 2 3 4 5 0) = false := by
  refine ⟨by decide, by decide, by decide, by decide⟩

/-! ## C1 — file-mode rename and the unassigned file_new guard -/

/-- C1: in file mode, the first file that needs no rename reaches the
final if file_new guard with the variable never assigned, so the run dies
with UnboundLocalError right after moving the file (envC1a); when the
target directory does hold a same-named file, the file is moved as a_1.txt
and the single note link references exactly a_1.txt (envC1b), and a
further collision yields a_2.txt (envC1c). -/
theorem c1_rename_code_bug :
    (run 3 envC1a).result = Except.error Err.unboundLocal
    ∧ (run 3 envC1b).result = Except.ok ()
    ∧ Op.move "a.txt" "/home/u/work/a_1.txt" ∈ (run 3 envC1b).trace
    ∧ Op.writeFile "joplin/id01.md"
        ("a_1" ++ "\n\n" ++ "[work](file:///home/u/work/a_1.txt)\n" ++ "\n" ++
          noteMetadata "id01" "T") ∈ (run 3 envC1b).trace
    ∧ Op.move "a.txt" "/home/u/work/a_2.txt" ∈ (run 3 envC1c).trace := by
  set_option maxRecDepth 10000 in
  refine ⟨by decide, by decide, by decide, by decide, by decide⟩

/-! ## C2 — identifier uniqueness -/

/-- C2 counterexample: a managed run over one file allocates an attachment
identifier and a note identifier; both retry loops consult only the note
namespace directory, so with a randomness stream that repeats, the two
identifiers of one successful run coincide — the second record write even
reuses the path of the first. -/
theorem c2_counterexample :
    (run 2 envC2).result = Except.ok ()
    ∧ (run 2 envC2).ids = ["aa", "aa"]
    ∧ ¬ (run 2 envC2).ids.Nodup := by
  set_option maxRecDepth 10000 in
  refine ⟨by decide, by decide, by decide⟩

/-- C2 amended: every identifier the retry loop returns is fresh with
respect to the identifiers present as id.md files in the note namespace
directory at the moment of generation (the file-system argument of the
loop); freshness against identifiers allocated earlier in the same run is
not checked. -/
theorem c2_allocator_fresh (jd : String) (fs : List String) (stream : Nat → String)
    (fuel k k1 : Nat) (r : String)
    (h : allocLoop jd fs stream fuel k = some (r, k1)) :
    (jd ++ "/" ++ r ++ ".md") ∉ fs := by
  induction fuel generalizing k with
  | zero => exact absurd h (by simp [allocLoop])
  | succ n ih =>
    rw [allocLoop] at h
    by_cases hin : (jd ++ "/" ++ stream k ++ ".md") ∈ fs
    · rw [if_pos hin] at h
      exact ih (k + 1) h
    · rw [if_neg hin] at h
      have hr : stream k = r := by
        cases h
        rfl
      rw [← hr]
      exact hin

/-- C2 witness: the allocator skips the one identifier already present. -/
theorem c2_allocator_fresh_witness :
    ("/ns" ++ "/" ++ "bb" ++ ".md") ∉ ["/ns/aa.md"] :=
  c2_allocator_fresh "/ns" ["/ns/aa.md"] (fun n => if n = 0 then "aa" else "bb")
    3 0 2 "bb" (by decide)

/-! ## C3 — files processed and record count -/

/-- C3 counterexample: main lists input files with glob *.* , so a
top-level file whose name contains no period is never processed: a managed
run over a directory holding exactly the file README succeeds and writes
zero record files instead of the claimed two. -/
theorem c3_counterexample :
    (run 1 envC3).result = Except.ok ()
    ∧ countRecordWrites (run 1 envC3).trace = 0
    ∧ envC3.inputNames.length = 1 := by
  refine ⟨by decide, by decide, by decide⟩

/-! ## C7 — manifest error handling -/

/-- C7 counterexample: a file-mode run whose manifest consists of a line
without a comma is not rejected: get_attach_dir_list parses it into a
one-element entry, and when no input file matches the glob the run
completes without any error. -/
theorem c7_counterexample : (run 1 envC7).result = Except.ok () := by decide

/-! ## C6 — file link lines and separator normalization -/

/-- C6 counterexample: for a directory path containing both separator
styles, the normalization appends both a slash and then a backslash, so
the path ends with two trailing separators, not exactly one. -/
theorem c6_counterexample :
    normalizeDir "a/b\\c" = "a/b\\c/\\"
    ∧ '/' ∈ ("a/b\\c" : String).data
    ∧ '\\' ∈ ("a/b\\c" : String).data
    ∧ endsWithOneSep (normalizeDir "a/b\\c") = false := by
  refine ⟨by decide, by decide, by decide, by decide⟩

/-! ## Prefix and link-line helper lemmas -/

theorem isPrefixOf_append_self (l m : List Char) : l.isPrefixOf (l ++ m) = true :=
  List.isPrefixOf_iff_prefix.mpr (List.prefix_append l m)

theorem strStarts_of_data (p s : String) (t : List Char) (h : s.data = p.data ++ t) :
    strStarts p s = true := by
  unfold strStarts
  rw [h]
  exact isPrefixOf_append_self p.data t

theorem strStarts_embed_false (s : String) (t : List Char) (h : s.data = '[' :: t) :
    strStarts "![" s = false := by
  unfold strStarts
  rw [h]
  rfl

theorem joplinLinkSection_shape (s f a : String) :
    ∃ t : List Char, (joplinLinkSection s f a).data = s.data ++ t := by
  refine ⟨f.data ++ ("](:/" : String).data ++ a.data ++ (")\n\n" : String).data, ?_⟩
  simp [joplinLinkSection, data_append, List.append_assoc]

theorem fileLinkLine_shape (start ln dn fe : String) :
    ∃ t : List Char, (fileLinkLine start ln dn fe).data = start.data ++ t := by
  refine ⟨ln.data ++ ("](file://" : String).data ++ dn.data ++ fe.data
    ++ (")\n" : String).data, ?_⟩
  simp [fileLinkLine, data_append, List.append_assoc]

/-- Structure of a successful fileLinkLines result: one line per manifest
entry, each beginning with the start marker. -/
theorem fileLinkLines_spec (start fileEsc : String) (adl : List (List String))
    (lines : List String) (h : fileLinkLines start fileEsc adl = .ok lines) :
    lines.length = adl.length
      ∧ ∀ l ∈ lines, ∃ t : List Char, l.data = start.data ++ t := by
  induction adl generalizing lines with
  | nil =>
    unfold fileLinkLines at h
    cases h
    simp
  | cons a rest ih =>
    unfold fileLinkLines at h
    rcases h0 : a.get? 0 with _ | ln
    · rw [h0] at h
      cases h
    · rcases h1 : a.get? 1 with _ | dn
      · rw [h0, h1] at h
        cases h
      · rw [h0, h1] at h
        rcases hr : fileLinkLines start fileEsc rest with e | ls
        · rw [hr] at h
          cases h
        · rw [hr] at h
          cases h
          obtain ⟨ihl, ihm⟩ := ih ls hr
          refine ⟨by simp [ihl], ?_⟩
          intro l hl
          rcases List.mem_cons.mp hl with hl1 | hl1
          · rw [hl1]
            exact fileLinkLine_shape start (pyStrip ln) (normalizeDir (pyStrip dn)) fileEsc
          · exact ihm l hl1

theorem flatMap_noSpace (l : List Char) (h : ' ' ∉ l) :
    (l.flatMap fun c => if c = ' ' then ['%', '2', '0'] else [c]) = l := by
  induction l with
  | nil => rfl
  | cons c cs ih =>
    have hc : c ≠ ' ' := by
      intro hc
      exact h (hc ▸ List.mem_cons_self c cs)
    have hcs : ' ' ∉ cs := fun hm => h (List.mem_cons_of_mem c hm)
    show (if c = ' ' then ['%', '2', '0'] else [c]) ++
        (cs.flatMap fun c => if c = ' ' then ['%', '2', '0'] else [c]) = c :: cs
    rw [if_neg hc, ih hcs]
    rfl

theorem escapeSpaces_no_space (f : String) (h : ' ' ∉ f.data) : escapeSpaces f = f := by
  apply String.ext
  show (f.data.flatMap fun c => if c = ' ' then ['%', '2', '0'] else [c]) = f.data
  exact flatMap_noSpace f.data h

/-! ## C5 — image extensions embed, all others link -/

/-- C5: with the extension computed by split_file_name, the note link
markup starts with the embedding marker exactly when the extension is
.png, .jpeg or .jpg, and with the plain-link marker (and provably not the
embedding marker) otherwise — for the managed-mode link section and for
every file-mode link line alike. -/
theorem c5_image_embed (file attach : String) (adl : List (List String))
    (lines : List String)
    (h : fileLinkLines (linkStart (split_file_name file).1) (escapeSpaces file) adl
        = .ok lines) :
    ((split_file_name file).1 = ".png" ∨ (split_file_name file).1 = ".jpeg"
        ∨ (split_file_name file).1 = ".jpg" →
      strStarts "![" (joplinLinkSection (linkStart (split_file_name file).1) file attach)
          = true
      ∧ ∀ l ∈ lines, strStarts "![" l = true)
    ∧ (¬ ((split_file_name file).1 = ".png" ∨ (split_file_name file).1 = ".jpeg"
          ∨ (split_file_name file).1 = ".jpg") →
      (strStarts "[" (joplinLinkSection (linkStart (split_file_name file).1) file attach)
          = true
        ∧ strStarts "!["
            (joplinLinkSection (linkStart (split_file_name file).1) file attach) = false)
      ∧ ∀ l ∈ lines, strStarts "[" l = true ∧ strStarts "![" l = false) := by
  obtain ⟨-, hmem⟩ := fileLinkLines_spec _ _ _ _ h
  constructor
  · intro himg
    have hst : linkStart (split_file_name file).1 = "![" := by
      unfold linkStart
      rw [if_pos himg]
    rw [hst] at hmem ⊢
    constructor
    · obtain ⟨t, ht⟩ := joplinLinkSection_shape "![" file attach
      exact strStarts_of_data _ _ t ht
    · intro l hl
      obtain ⟨t, ht⟩ := hmem l hl
      exact strStarts_of_data _ _ t ht
  · intro himg
    have hst : linkStart (split_file_name file).1 = "[" := by
      unfold linkStart
      rw [if_neg himg]
    rw [hst] at hmem ⊢
    have hsec := joplinLinkSection_shape "[" file attach
    obtain ⟨t, ht⟩ := hsec
    refine ⟨⟨strStarts_of_data _ _ t ht, strStarts_embed_false _ _ ht⟩, ?_⟩
    intro l hl
    obtain ⟨t2, ht2⟩ := hmem l hl
    exact ⟨strStarts_of_data _ _ t2 ht2, strStarts_embed_false _ _ ht2⟩

/-- C5 witness: a png file gets an embedding link in managed mode. -/
theorem c5_image_embed_witness :
    strStarts "!["
      (joplinLinkSection (linkStart (split_file_name "p.png").1) "p.png" "aa") = true :=
  ((c5_image_embed "p.png" "aa" [["work", "/w"]] ["![work](file:///w/p.png)\n"]
    (by decide)).1 (by decide)).1

/-! ## C6 amended — link-line form and separator normalization -/

/-- C6 amended: a successful file-mode link generation yields exactly one
line per manifest entry; spaces in the file name are replaced by the
percent escape and nothing else changes (a space-free name is untouched);
the directory normalization appends a slash when the path contains one and
does not end with one, then a backslash likewise, so a single-style path
ends with that separator (appended exactly once when it was missing), a
path with neither separator is unchanged — and a path with both styles
can end with the two-character slash-backslash sequence (see the
counterexample). -/
theorem c6_link_lines (d f : String) (adl : List (List String)) (start : String)
    (lines : List String)
    (h : fileLinkLines start (escapeSpaces f) adl = .ok lines) :
    lines.length = adl.length
    ∧ ('/' ∈ d.data → '\\' ∉ d.data →
        (normalizeDir d).data.getLast? = some '/'
        ∧ (d.data.getLast? ≠ some '/' → normalizeDir d = d ++ "/"))
    ∧ ('\\' ∈ d.data → '/' ∉ d.data →
        (normalizeDir d).data.getLast? = some '\\'
        ∧ (d.data.getLast? ≠ some '\\' → normalizeDir d = d ++ "\\"))
    ∧ ('/' ∉ d.data → '\\' ∉ d.data → normalizeDir d = d)
    ∧ (' ' ∉ f.data → escapeSpaces f = f)
    ∧ escapeSpaces "a b.txt" = "a%20b.txt" := by
  refine ⟨(fileLinkLines_spec _ _ _ _ h).1, ?_, ?_, ?_, escapeSpaces_no_space f, by decide⟩
  · intro hs hb
    by_cases hl : d.data.getLast? = some '/'
    · have hinner : (if '/' ∈ d.data ∧ d.data.getLast? ≠ some '/' then d ++ "/" else d)
          = d := if_neg (fun hc => hc.2 hl)
      have h1 : normalizeDir d = d := by
        unfold normalizeDir appendBackslashStep
        rw [hinner, if_neg (fun hc => hb hc.1)]
      rw [h1]
      exact ⟨hl, fun hne => absurd hl hne⟩
    · have hinner : (if '/' ∈ d.data ∧ d.data.getLast? ≠ some '/' then d ++ "/" else d)
          = d ++ "/" := if_pos ⟨hs, hl⟩
      have h1 : normalizeDir d = d ++ "/" := by
        unfold normalizeDir appendBackslashStep
        rw [hinner]
        refine if_neg (fun hc => ?_)
        rcases List.mem_append.mp (by
          rw [← data_append]
          exact hc.1) with hm | hm
        · exact hb hm
        · simp at hm
      rw [h1]
      refine ⟨?_, fun _ => rfl⟩
      rw [data_append]
      exact List.getLast?_concat d.data
  · intro hs hb
    have hinner : (if '/' ∈ d.data ∧ d.data.getLast? ≠ some '/' then d ++ "/" else d)
        = d := if_neg (fun hc => hb hc.1)
    by_cases hl : d.data.getLast? = some '\\'
    · have h1 : normalizeDir d = d := by
        unfold normalizeDir appendBackslashStep
        rw [hinner, if_neg (fun hc => hc.2 hl)]
      rw [h1]
      exact ⟨hl, fun hne => absurd hl hne⟩
    · have h1 : normalizeDir d = d ++ "\\" := by
        unfold normalizeDir appendBackslashStep
        rw [hinner, if_pos ⟨hs, hl⟩]
      rw [h1]
      refine ⟨?_, fun _ => rfl⟩
      rw [data_append]
      exact List.getLast?_concat d.data
  · intro hs hb
    have hinner : (if '/' ∈ d.data ∧ d.data.getLast? ≠ some '/' then d ++ "/" else d)
        = d := if_neg (fun hc => hs hc.1)
    unfold normalizeDir appendBackslashStep
    rw [hinner, if_neg (fun hc => hb hc.1)]

/-- C6 witness: a slash-only path without a trailing slash gets exactly
one slash appended. -/
theorem c6_link_lines_witness : normalizeDir "/w" = "/w" ++ "/" :=
  (((c6_link_lines "/w" "a.txt" [["work", "/w"]] "["
      ["[work](file:///w/a.txt)\n"] (by decide)).2.1 (by decide) (by decide)).2 (by decide))

/-! ## StepOps algebra and operation classification -/

theorem stepOps_nil (st : RunSt) : StepOps st st [] := by
  constructor
  · simp
  · rfl

theorem stepOps_trans {st1 st2 st3 : RunSt} {ops1 ops2 : List Op}
    (h1 : StepOps st1 st2 ops1) (h2 : StepOps st2 st3 ops2) :
    StepOps st1 st3 (ops1 ++ ops2) := by
  obtain ⟨ht1, hf1⟩ := h1
  obtain ⟨ht2, hf2⟩ := h2
  constructor
  · rw [ht2, ht1, List.append_assoc]
  · rw [hf2, hf1]
    unfold applyOps
    rw [List.foldl_append]

theorem countRecordWrites_append (l1 l2 : List Op) :
    countRecordWrites (l1 ++ l2) = countRecordWrites l1 + countRecordWrites l2 := by
  simp [countRecordWrites, List.filter_append]

/-- fileLinkLines can only fail with IndexError. -/
theorem fileLinkLines_error (start fileEsc : String) (adl : List (List String)) (e : Err)
    (h : fileLinkLines start fileEsc adl = .error e) : e = .indexError := by
  induction adl with
  | nil =>
    unfold fileLinkLines at h
    cases h
  | cons a rest ih =>
    unfold fileLinkLines at h
    rcases h0 : a.get? 0 with _ | ln <;> rw [h0] at h
    · injection h with h2
      exact h2.symm
    · rcases h1 : a.get? 1 with _ | dn <;> rw [h1] at h
      · injection h with h2
        exact h2.symm
      · rcases hr : fileLinkLines start fileEsc rest with e2 | ls <;> rw [hr] at h
        · injection h with h2
          subst h2
          exact ih hr
        · cases h

/-- Every path the rename loop can settle on lies in the target directory. -/
theorem renameLoop_path (dir pre ext : String) (fs : List String) (fuel : Nat)
    (fp : String) (cnt : Nat) (fn : Option String) (fp2 : String) (fn2 : Option String)
    (h : renameLoop dir pre ext fs fuel fp cnt fn = some (fp2, fn2)) :
    fp2 = fp ∨ ∃ x : String, fp2 = dir ++ "/" ++ x := by
  induction fuel generalizing fp cnt fn with
  | zero =>
    unfold renameLoop at h
    cases h
  | succ n ih =>
    unfold renameLoop at h
    by_cases hin : fp ∈ fs
    · rw [if_pos hin] at h
      rcases ih _ _ _ h with h1 | ⟨x, hx⟩
      · exact Or.inr ⟨pre ++ "_" ++ toString cnt ++ "." ++ ext, h1⟩
      · exact Or.inr ⟨x, hx⟩
    · rw [if_neg hin] at h
      injection h with h2
      injection h2 with h3 h4
      exact Or.inl h3.symm

theorem joplin_prefix_append (x : String) :
    ("joplin/" : String).data.isPrefixOf ("joplin/" ++ x).data = true := by
  rw [data_append]
  exact isPrefixOf_append_self _ _

theorem joplin_prefix_resources (x : String) :
    ("joplin/" : String).data.isPrefixOf ("joplin/resources/" ++ x).data = true := by
  apply List.isPrefixOf_iff_prefix.mpr
  have h1 : ("joplin/" : String).data <+: ("joplin/resources/" : String).data :=
    List.isPrefixOf_iff_prefix.mp (by decide)
  refine h1.trans ?_
  rw [data_append]
  exact List.prefix_append _ _

/-! ## Step specifications of the per-file operations -/

/-- Specification of write_note_file: it extends the state by zero or more
operations, every mutated path is inside the output directory or is the
stripped first manifest directory, a successful call writes exactly one
record file, and a failing call fails with fuel exhaustion or IndexError. -/
theorem write_note_file_spec (env : Env) (fuel : Nat) (st : RunSt) (file : String)
    (ja : Option String) (fal : Option (List (List String)))
    (out : RunSt × Except Err Unit) (P : String → Prop)
    (hjop : ∀ p : String, ("joplin/" : String).data.isPrefixOf p.data = true → P p)
    (hdir : ∀ hd : String, (fal.getD []).head?.bind (fun a => a.get? 1) = some hd →
      P (pyStrip hd))
    (h : write_note_file env fuel st file ja fal = out) :
    ∃ ops : List Op, StepOps st out.1 ops
      ∧ (∀ op ∈ ops, ∀ p ∈ mutTargets op, P p)
      ∧ (out.2 = .ok () → countRecordWrites ops = 1)
      ∧ ∀ e : Err, out.2 = .error e → e = .fuelExhausted ∨ e = .indexError := by
  simp only [write_note_file] at h
  rcases halloc : allocLoop env.joplin_directory st.fs env.stream fuel st.k
      with _ | ⟨rand_md, k1⟩ <;> rw [halloc] at h <;> dsimp only at h
  · have ho1 : out.1 = st := by rw [← h]
    have ho2 : out.2 = Except.error Err.fuelExhausted := by rw [← h]
    refine ⟨[], ?_, by simp, ?_, ?_⟩
    · rw [ho1]
      exact stepOps_nil st
    · rw [ho2]
      intro hk
      cases hk
    · rw [ho2]
      intro e he
      injection he with h2
      exact Or.inl h2.symm
  · rcases ja with _ | attach <;> dsimp only at h
    · rcases hd0 : ((fal.getD []).head?.bind fun a => a.get? 1) with _ | d0 <;>
        rw [hd0] at h <;> dsimp only at h
      · have ho1 : out.1 = { st with k := k1, ids := st.ids ++ [rand_md] } := by rw [← h]
        have ho2 : out.2 = Except.error Err.indexError := by rw [← h]
        refine ⟨[], ?_, by simp, ?_, ?_⟩
        · rw [ho1]
          exact ⟨by simp, rfl⟩
        · rw [ho2]
          intro hk
          cases hk
        · rw [ho2]
          intro e he
          injection he with h2
          exact Or.inr h2.symm
      · by_cases hmem : pyStrip d0 ∈ st.fs
        · rw [if_pos hmem] at h
          rcases hlines : fileLinkLines (linkStart (split_file_name file).1)
              (escapeSpaces file) (fal.getD []) with e2 | lines <;> rw [hlines] at h
          · have ho1 : out.1 = { st with k := k1, ids := st.ids ++ [rand_md] } := by
              rw [← h]
            have ho2 : out.2 = Except.error e2 := by rw [← h]
            refine ⟨[], ?_, by simp, ?_, ?_⟩
            · rw [ho1]
              exact ⟨by simp, rfl⟩
            · rw [ho2]
              intro hk
              cases hk
            · rw [ho2]
              intro e he
              injection he with h2
              subst h2
              exact Or.inr (fileLinkLines_error _ _ _ _ hlines)
          · have ho1 : out.1 = emit { st with k := k1, ids := st.ids ++ [rand_md] }
                (.writeFile ("joplin/" ++ rand_md ++ ".md")
                  ((split_file_name file).2 ++ "\n\n" ++ concatAll lines ++ "\n" ++
                    noteMetadata rand_md env.now)) := by rw [← h]
            have ho2 : out.2 = Except.ok () := by rw [← h]
            refine ⟨[.writeFile ("joplin/" ++ rand_md ++ ".md")
              ((split_file_name file).2 ++ "\n\n" ++ concatAll lines ++ "\n" ++
                noteMetadata rand_md env.now)], ?_, ?_, ?_, ?_⟩
            · rw [ho1]
              exact ⟨rfl, rfl⟩
            · intro op hop p hp
              rw [List.mem_singleton] at hop
              subst hop
              rcases List.mem_singleton.mp hp with rfl
              refine hjop _ ?_
              rw [String.append_assoc]
              exact joplin_prefix_append _
            · intro _
              rfl
            · rw [ho2]
              intro e he
              cases he
        · rw [if_neg hmem] at h
          rcases hlines : fileLinkLines (linkStart (split_file_name file).1)
              (escapeSpaces file) (fal.getD []) with e2 | lines <;> rw [hlines] at h
          · have ho1 : out.1 = emit { st with k := k1, ids := st.ids ++ [rand_md] }
                (.mkdir (pyStrip d0)) := by rw [← h]
            have ho2 : out.2 = Except.error e2 := by rw [← h]
            refine ⟨[.mkdir (pyStrip d0)], ?_, ?_, ?_, ?_⟩
            · rw [ho1]
              exact ⟨rfl, rfl⟩
            · intro op hop p hp
              rw [List.mem_singleton] at hop
              subst hop
              rcases List.mem_singleton.mp hp with rfl
              exact hdir d0 hd0
            · rw [ho2]
              intro hk
              cases hk
            · rw [ho2]
              intro e he
              injection he with h2
              subst h2
              exact Or.inr (fileLinkLines_error _ _ _ _ hlines)
          · have ho1 : out.1 = emit
                (emit { st with k := k1, ids := st.ids ++ [rand_md] }
                  (.mkdir (pyStrip d0)))
                (.writeFile ("joplin/" ++ rand_md ++ ".md")
                  ((split_file_name file).2 ++ "\n\n" ++ concatAll lines ++ "\n" ++
                    noteMetadata rand_md env.now)) := by rw [← h]
            have ho2 : out.2 = Except.ok () := by rw [← h]
            refine ⟨[.mkdir (pyStrip d0),
              .writeFile ("joplin/" ++ rand_md ++ ".md")
                ((split_file_name file).2 ++ "\n\n" ++ concatAll lines ++ "\n" ++
                  noteMetadata rand_md env.now)], ?_, ?_, ?_, ?_⟩
            · rw [ho1]
              refine ⟨?_, rfl⟩
              show (st.trace ++ [Op.mkdir (pyStrip d0)]) ++ [_] = st.trace ++ [_, _]
              rw [List.append_assoc]
              rfl
            · intro op hop p hp
              rcases List.mem_cons.mp hop with rfl | hop2
              · rcases List.mem_singleton.mp hp with rfl
                exact hdir d0 hd0
              · rw [List.mem_singleton] at hop2
                subst hop2
                rcases List.mem_singleton.mp hp with rfl
                refine hjop _ ?_
                rw [String.append_assoc]
                exact joplin_prefix_append _
            · intro _
              rfl
            · rw [ho2]
              intro e he
              cases he
    · have ho1 : out.1 = emit { st with k := k1, ids := st.ids ++ [rand_md] }
          (.writeFile ("joplin/" ++ rand_md ++ ".md")
            ((split_file_name file).2 ++ "\n\n" ++
              joplinLinkSection (linkStart (split_file_name file).1) file attach ++
              noteMetadata rand_md env.now)) := by rw [← h]
      have ho2 : out.2 = Except.ok () := by rw [← h]
      refine ⟨[.writeFile ("joplin/" ++ rand_md ++ ".md")
        ((split_file_name file).2 ++ "\n\n" ++
          joplinLinkSection (linkStart (split_file_name file).1) file attach ++
          noteMetadata rand_md env.now)], ?_, ?_, ?_, ?_⟩
      · rw [ho1]
        exact ⟨rfl, rfl⟩
      · intro op hop p hp
        rw [List.mem_singleton] at hop
        subst hop
        rcases List.mem_singleton.mp hp with rfl
        refine hjop _ ?_
        rw [String.append_assoc]
        exact joplin_prefix_append _
      · intro _
        rfl
      · rw [ho2]
        intro e he
        cases he

/-- Specification of one managed-mode iteration: a success moves the
attachment into the resources subtree and writes exactly two record files;
every mutated path is the input file (move source) or lies under the
output directory. -/
theorem processManaged_spec (env : Env) (fuel : Nat) (st : RunSt) (file : String)
    (out : RunSt × Except Err Unit) (P : String → Prop)
    (hjop : ∀ p : String, ("joplin/" : String).data.isPrefixOf p.data = true → P p)
    (hfile : P file)
    (h : processManaged env fuel st file = out) :
    ∃ ops : List Op, StepOps st out.1 ops
      ∧ (∀ op ∈ ops, ∀ p ∈ mutTargets op, P p)
      ∧ (out.2 = .ok () → countRecordWrites ops = 2)
      ∧ ∀ e : Err, out.2 = .error e → e = .fuelExhausted ∨ e = .indexError := by
  simp only [processManaged] at h
  rcases halloc : allocLoop env.joplin_directory st.fs env.stream fuel st.k
      with _ | ⟨r1, k1⟩ <;> rw [halloc] at h <;> dsimp only at h
  · have ho1 : out.1 = st := by rw [← h]
    have ho2 : out.2 = Except.error Err.fuelExhausted := by rw [← h]
    refine ⟨[], ?_, by simp, ?_, ?_⟩
    · rw [ho1]
      exact stepOps_nil st
    · rw [ho2]
      intro hk
      cases hk
    · rw [ho2]
      intro e he
      injection he with h2
      exact Or.inl h2.symm
  · obtain ⟨ops2, hstep2, htarg2, hcount2, herr2⟩ :=
      write_note_file_spec env fuel
        (write_attachment_file env { st with k := k1, ids := st.ids ++ [r1] } file r1)
        file (some r1) none out P hjop (fun hd hhd => nomatch hhd) h
    refine ⟨[Op.move file ("joplin/resources/" ++ r1),
      Op.writeFile ("joplin/" ++ r1 ++ ".md")
        (attachmentContent file r1 env.now
          ((env.mime (split_file_name file).1).getD "") (env.sizeOf file))] ++ ops2,
      ?_, ?_, ?_, herr2⟩
    · refine stepOps_trans ?_ hstep2
      constructor
      · show (st.trace ++ [Op.move file ("joplin/resources/" ++ r1)]) ++ [_] = _
        rw [List.append_assoc]
        rfl
      · rfl
    · intro op hop p hp
      rcases List.mem_append.mp hop with hop1 | hop2
      · rcases List.mem_cons.mp hop1 with rfl | hop3
        · rcases List.mem_cons.mp hp with rfl | hp2
          · exact hfile
          · rcases List.mem_singleton.mp hp2 with rfl
            exact hjop _ (joplin_prefix_resources r1)
        · rw [List.mem_singleton] at hop3
          subst hop3
          rcases List.mem_singleton.mp hp with rfl
          refine hjop _ ?_
          rw [String.append_assoc]
          exact joplin_prefix_append _
      · exact htarg2 op hop2 p hp
    · intro hk
      rw [countRecordWrites_append, hcount2 hk]
      rfl

/-- Specification of one file-mode iteration: every mutated path is the
input file, the output directory subtree, or the first manifest directory
and its subtree; a success writes exactly one record file; a failure is
fuel exhaustion, IndexError, or the UnboundLocalError of the file_new
guard. -/
theorem processFilePath_spec (env : Env) (fuel : Nat) (adl : List (List String))
    (st : RunSt) (file : String) (out : RunSt × Except Err Unit) (P : String → Prop)
    (hjop : ∀ p : String, ("joplin/" : String).data.isPrefixOf p.data = true → P p)
    (hfile : P file)
    (hdir : ∀ hd : String, adl.head?.bind (fun a => a.get? 1) = some hd → P (pyStrip hd))
    (hdirsub : ∀ hd x : String, adl.head?.bind (fun a => a.get? 1) = some hd →
        P (pyStrip hd ++ "/" ++ x))
    (h : processFilePath env fuel adl st file = out) :
    ∃ ops : List Op, StepOps st out.1 ops
      ∧ (∀ op ∈ ops, ∀ p ∈ mutTargets op, P p)
      ∧ (out.2 = .ok () → countRecordWrites ops = 1)
      ∧ ∀ e : Err, out.2 = .error e →
          e = .fuelExhausted ∨ e = .indexError ∨ e = .unboundLocal := by
  simp only [processFilePath] at h
  rcases hd0 : (adl.head?.bind fun a => a.get? 1) with _ | d0 <;> rw [hd0] at h <;>
    dsimp only at h
  · have ho1 : out.1 = st := by rw [← h]
    have ho2 : out.2 = Except.error Err.indexError := by rw [← h]
    refine ⟨[], ?_, by simp, ?_, ?_⟩
    · rw [ho1]
      exact stepOps_nil st
    · rw [ho2]
      intro hk
      cases hk
    · rw [ho2]
      intro e he
      injection he with h2
      exact Or.inr (Or.inl h2.symm)
  · rcases hren : renameLoop (pyStrip d0)
        (String.mk (joinSep '.' (splitSep '.' file.data).dropLast))
        (String.mk ((splitSep '.' file.data).getLastD [])) st.fs fuel
        (pyStrip d0 ++ "/" ++ file) 1 st.fileNew with _ | ⟨fp2, fn⟩ <;>
      rw [hren] at h <;> dsimp only at h
    · have ho1 : out.1 = st := by rw [← h]
      have ho2 : out.2 = Except.error Err.fuelExhausted := by rw [← h]
      refine ⟨[], ?_, by simp, ?_, ?_⟩
      · rw [ho1]
        exact stepOps_nil st
      · rw [ho2]
        intro hk
        cases hk
      · rw [ho2]
        intro e he
        injection he with h2
        exact Or.inl h2.symm
    · have hPfp2 : P fp2 := by
        rcases renameLoop_path _ _ _ _ _ _ _ _ _ _ hren with h1 | ⟨x, hx⟩
        · rw [h1]
          exact hdirsub d0 file hd0
        · rw [hx]
          exact hdirsub d0 x hd0
      rcases fn with _ | s <;> dsimp only at h
      · have ho1 : out.1 = emit { st with fileNew := none } (.move file fp2) := by
          rw [← h]
        have ho2 : out.2 = Except.error Err.unboundLocal := by rw [← h]
        refine ⟨[Op.move file fp2], ?_, ?_, ?_, ?_⟩
        · rw [ho1]
          exact ⟨rfl, rfl⟩
        · intro op hop p hp
          rw [List.mem_singleton] at hop
          subst hop
          rcases List.mem_cons.mp hp with rfl | hp2
          · exact hfile
          · rcases List.mem_singleton.mp hp2 with rfl
            exact hPfp2
        · rw [ho2]
          intro hk
          cases hk
        · rw [ho2]
          intro e he
          injection he with h2
          exact Or.inr (Or.inr h2.symm)
      · obtain ⟨ops2, hstep2, htarg2, hcount2, herr2⟩ :=
          write_note_file_spec env fuel
            (emit { st with fileNew := some s } (.move file fp2))
            (if s = "" then file else s) none (some adl) out P hjop
            (fun hd hhd => hdir hd hhd) h
        refine ⟨[Op.move file fp2] ++ ops2, stepOps_trans ⟨rfl, rfl⟩ hstep2, ?_, ?_, ?_⟩
        · intro op hop p hp
          rcases List.mem_append.mp hop with hop1 | hop2
          · rw [List.mem_singleton] at hop1
            subst hop1
            rcases List.mem_cons.mp hp with rfl | hp2
            · exact hfile
            · rcases List.mem_singleton.mp hp2 with rfl
              exact hPfp2
          · exact htarg2 op hop2 p hp
        · intro hk
          rw [countRecordWrites_append, hcount2 hk]
          rfl
        · intro e he
          rcases herr2 e he with h1 | h1
          · exact Or.inl h1
          · exact Or.inr (Or.inl h1)

/-- Specification of the conversion loop: it writes two record files per
processed file in managed mode and one in file mode, touches only the
allowed paths, and can only fail with fuel exhaustion, IndexError or
UnboundLocalError. -/
theorem runLoop_spec (env : Env) (fuel : Nat) (adl : Option (List (List String)))
    (P : String → Prop)
    (hjop : ∀ p : String, ("joplin/" : String).data.isPrefixOf p.data = true → P p)
    (hdir : ∀ hd : String, (adl.getD []).head?.bind (fun a => a.get? 1) = some hd →
        P (pyStrip hd))
    (hdirsub : ∀ hd x : String, (adl.getD []).head?.bind (fun a => a.get? 1) = some hd →
        P (pyStrip hd ++ "/" ++ x))
    (l : List String) (st : RunSt)
    (hfiles : ∀ f ∈ l, P f) :
    ∃ ops : List Op, StepOps st (runLoop env fuel adl l st).1 ops
      ∧ (∀ op ∈ ops, ∀ p ∈ mutTargets op, P p)
      ∧ ((runLoop env fuel adl l st).2 = .ok () →
          countRecordWrites ops
            = (match env.linkType with | .managed => 2 | .file => 1) * l.length)
      ∧ ∀ e : Err, (runLoop env fuel adl l st).2 = .error e →
          e = .fuelExhausted ∨ e = .indexError ∨ e = .unboundLocal := by
  induction l generalizing st with
  | nil =>
    refine ⟨[], stepOps_nil st, by simp, ?_, ?_⟩
    · intro _
      rfl
    · intro e he
      cases he
  | cons f rest ih =>
    cases hmode : env.linkType
    · rcases hstep : processManaged env fuel st f with ⟨st1, r⟩
      rcases r with e | u
      · have hval : runLoop env fuel adl (f :: rest) st = (st1, Except.error e) := by
          simp only [runLoop]
          rw [hmode]
          dsimp only
          rw [hstep]
        obtain ⟨ops1, hstep1, htarg1, hcount1, herr1⟩ :=
          processManaged_spec env fuel st f (st1, .error e) P hjop
            (hfiles f (List.mem_cons_self f rest)) hstep
        refine ⟨ops1, ?_, htarg1, ?_, ?_⟩
        · rw [hval]
          exact hstep1
        · rw [hval]
          intro hk
          cases hk
        · rw [hval]
          intro e2 he2
          rcases herr1 e2 he2 with h1 | h1
          · exact Or.inl h1
          · exact Or.inr (Or.inl h1)
      · have hval : runLoop env fuel adl (f :: rest) st = runLoop env fuel adl rest st1 := by
          simp only [runLoop]
          rw [hmode]
          dsimp only
          rw [hstep]
        obtain ⟨ops1, hstep1, htarg1, hcount1, herr1⟩ :=
          processManaged_spec env fuel st f (st1, .ok u) P hjop
            (hfiles f (List.mem_cons_self f rest)) hstep
        obtain ⟨ops2, hstep2, htarg2, hcount2, herr2⟩ :=
          ih st1 (fun f2 hf2 => hfiles f2 (List.mem_cons_of_mem f hf2))
        refine ⟨ops1 ++ ops2, ?_, ?_, ?_, ?_⟩
        · rw [hval]
          exact stepOps_trans hstep1 hstep2
        · intro op hop p hp
          rcases List.mem_append.mp hop with h1 | h1
          · exact htarg1 op h1 p hp
          · exact htarg2 op h1 p hp
        · rw [hval]
          intro hk
          rw [hmode] at hcount2
          rw [countRecordWrites_append, hcount1 rfl, hcount2 hk]
          show 2 + 2 * rest.length = 2 * (f :: rest).length
          simp only [List.length_cons]
          omega
        · rw [hval]
          exact herr2
    · rcases hstep : processFilePath env fuel (adl.getD []) st f with ⟨st1, r⟩
      rcases r with e | u
      · have hval : runLoop env fuel adl (f :: rest) st = (st1, Except.error e) := by
          simp only [runLoop]
          rw [hmode]
          dsimp only
          rw [hstep]
        obtain ⟨ops1, hstep1, htarg1, hcount1, herr1⟩ :=
          processFilePath_spec env fuel (adl.getD []) st f (st1, .error e) P hjop
            (hfiles f (List.mem_cons_self f rest)) hdir hdirsub hstep
        refine ⟨ops1, ?_, htarg1, ?_, ?_⟩
        · rw [hval]
          exact hstep1
        · rw [hval]
          intro hk
          cases hk
        · rw [hval]
          intro e2 he2
          exact herr1 e2 he2
      · have hval : runLoop env fuel adl (f :: rest) st = runLoop env fuel adl rest st1 := by
          simp only [runLoop]
          rw [hmode]
          dsimp only
          rw [hstep]
        obtain ⟨ops1, hstep1, htarg1, hcount1, herr1⟩ :=
          processFilePath_spec env fuel (adl.getD []) st f (st1, .ok u) P hjop
            (hfiles f (List.mem_cons_self f rest)) hdir hdirsub hstep
        obtain ⟨ops2, hstep2, htarg2, hcount2, herr2⟩ :=
          ih st1 (fun f2 hf2 => hfiles f2 (List.mem_cons_of_mem f hf2))
        refine ⟨ops1 ++ ops2, ?_, ?_, ?_, ?_⟩
        · rw [hval]
          exact stepOps_trans hstep1 hstep2
        · intro op hop p hp
          rcases List.mem_append.mp hop with h1 | h1
          · exact htarg1 op h1 p hp
          · exact htarg2 op h1 p hp
        · rw [hval]
          intro hk
          rw [hmode] at hcount2
          rw [countRecordWrites_append, hcount1 rfl, hcount2 hk]
          show 1 + 1 * rest.length = 1 * (f :: rest).length
          simp only [List.length_cons]
          omega
        · rw [hval]
          exact herr2

theorem applyOps_append (fs : List String) (l1 l2 : List Op) :
    applyOps fs (l1 ++ l2) = applyOps (applyOps fs l1) l2 := by
  unfold applyOps
  rw [List.foldl_append]

/-- Specification of a whole run: the final file system is the effect of
the trace on the initial one, every mutated path is an allowed target, a
successful run writes two record files per matching input name in managed
mode and one in file mode, and FileNotFoundError occurs only for a
file-mode run with a missing manifest. -/
theorem run_spec (env : Env) (fuel : Nat) (P : String → Prop)
    (hjoplin : P "joplin")
    (hjop : ∀ p : String, ("joplin/" : String).data.isPrefixOf p.data = true → P p)
    (hin : ∀ f ∈ env.inputNames, P f)
    (hdir : env.linkType = .file → P (firstDir env))
    (hdirsub : ∀ x : String, env.linkType = .file → P (firstDir env ++ "/" ++ x)) :
    (∀ op ∈ (run fuel env).trace, ∀ p ∈ mutTargets op, P p)
    ∧ (run fuel env).fs = applyOps env.fs (run fuel env).trace
    ∧ ((run fuel env).result = .ok () →
        countRecordWrites (run fuel env).trace
          = (match env.linkType with | .managed => 2 | .file => 1)
              * (env.inputNames.filter globMatch).length)
    ∧ ((run fuel env).result = .error .fileNotFound →
        env.linkType = .file ∧ env.manifest = none) := by
  cases hmode : env.linkType
  · by_cases hj : "joplin" ∈ env.fs
    · have hrun : run fuel env = ⟨Except.error Err.precondition, [], [], env.fs⟩ := by
        simp only [run]
        rw [hmode]
        dsimp only
        rw [if_pos hj]
      rw [hrun]
      refine ⟨by simp, rfl, ?_, ?_⟩
      · intro hk
        cases hk
      · intro hk
        cases hk
    · rcases hloop : runLoop env fuel none (env.inputNames.filter globMatch)
          (emit (emit (⟨env.fs, 0, [], [], none⟩ : RunSt) (.mkdir "joplin"))
            (.mkdir "joplin/resources")) with ⟨stF, res⟩
      have hrun : run fuel env = ⟨res, stF.ids, stF.trace, stF.fs⟩ := by
        simp only [run]
        rw [hmode]
        dsimp only
        rw [if_neg hj]
        rw [hloop]
      obtain ⟨ops, hstep, htarg, hcount, herr⟩ :=
        runLoop_spec env fuel none P hjop (fun hd hhd => nomatch hhd)
          (fun hd x hhd => nomatch hhd) (env.inputNames.filter globMatch)
          (emit (emit (⟨env.fs, 0, [], [], none⟩ : RunSt) (.mkdir "joplin"))
            (.mkdir "joplin/resources"))
          (fun f hf => hin f (List.mem_of_mem_filter hf))
      rw [hloop] at hstep hcount herr
      dsimp only at hstep hcount herr
      obtain ⟨htrace, hfs⟩ := hstep
      have htr2 : stF.trace = [Op.mkdir "joplin", Op.mkdir "joplin/resources"] ++ ops :=
        htrace
      rw [hrun]
      refine ⟨?_, ?_, ?_, ?_⟩
      · intro op hop p hp
        rw [htr2] at hop
        rcases List.mem_append.mp hop with h1 | h1
        · rcases List.mem_cons.mp h1 with rfl | h2
          · rcases List.mem_singleton.mp hp with rfl
            exact hjoplin
          · rw [List.mem_singleton] at h2
            subst h2
            rcases List.mem_singleton.mp hp with rfl
            exact hjop _ (by decide)
        · exact htarg op h1 p hp
      · show stF.fs = applyOps env.fs stF.trace
        rw [htr2, hfs, applyOps_append]
        rfl
      · intro hk
        rw [hmode] at hcount
        show countRecordWrites stF.trace = 2 * (env.inputNames.filter globMatch).length
        rw [htr2, countRecordWrites_append, hcount hk]
        show (0 : Nat) + 2 * (env.inputNames.filter globMatch).length
          = 2 * (env.inputNames.filter globMatch).length
        omega
      · intro hk
        rcases herr Err.fileNotFound hk with h1 | h1 | h1 <;> cases h1
  · rcases hmani : env.manifest with _ | lines
    · have hrun : run fuel env = ⟨Except.error Err.fileNotFound, [], [], env.fs⟩ := by
        simp only [run]
        rw [hmode, hmani]
      rw [hrun]
      refine ⟨by simp, rfl, ?_, ?_⟩
      · intro hk
        cases hk
      · intro _
        exact ⟨rfl, rfl⟩
    · by_cases hj : "joplin" ∈ env.fs
      · have hrun : run fuel env = ⟨Except.error Err.precondition, [], [], env.fs⟩ := by
          simp only [run]
          rw [hmode, hmani]
          dsimp only
          rw [if_pos hj]
        rw [hrun]
        refine ⟨by simp, rfl, ?_, ?_⟩
        · intro hk
          cases hk
        · intro hk
          cases hk
      · rcases hloop : runLoop env fuel (some (get_attach_dir_list lines))
            (env.inputNames.filter globMatch)
            (emit (⟨env.fs, 0, [], [], none⟩ : RunSt) (.mkdir "joplin"))
            with ⟨stF, res⟩
        have hrun : run fuel env = ⟨res, stF.ids, stF.trace, stF.fs⟩ := by
          simp only [run]
          rw [hmode, hmani]
          dsimp only
          rw [if_neg hj]
          rw [hloop]
        obtain ⟨ops, hstep, htarg, hcount, herr⟩ :=
          runLoop_spec env fuel (some (get_attach_dir_list lines)) P hjop
            (fun hd hhd => by
              have hhd2 : (get_attach_dir_list lines).head?.bind (fun a => a.get? 1)
                  = some hd := hhd
              have hfd : firstDir env = pyStrip hd := by
                unfold firstDir
                rw [hmani]
                dsimp only
                rw [hhd2]
                rfl
              exact hfd ▸ hdir hmode)
            (fun hd x hhd => by
              have hhd2 : (get_attach_dir_list lines).head?.bind (fun a => a.get? 1)
                  = some hd := hhd
              have hfd : firstDir env = pyStrip hd := by
                unfold firstDir
                rw [hmani]
                dsimp only
                rw [hhd2]
                rfl
              exact hfd ▸ hdirsub x hmode)
            (env.inputNames.filter globMatch)
            (emit (⟨env.fs, 0, [], [], none⟩ : RunSt) (.mkdir "joplin"))
            (fun f hf => hin f (List.mem_of_mem_filter hf))
        rw [hloop] at hstep hcount herr
        dsimp only at hstep hcount herr
        obtain ⟨htrace, hfs⟩ := hstep
        have htr2 : stF.trace = [Op.mkdir "joplin"] ++ ops := htrace
        rw [hrun]
        refine ⟨?_, ?_, ?_, ?_⟩
        · intro op hop p hp
          rw [htr2] at hop
          rcases List.mem_append.mp hop with h1 | h1
          · rw [List.mem_singleton] at h1
            subst h1
            rcases List.mem_singleton.mp hp with rfl
            exact hjoplin
          · exact htarg op h1 p hp
        · show stF.fs = applyOps env.fs stF.trace
          rw [htr2, hfs, applyOps_append]
          rfl
        · intro hk
          rw [hmode] at hcount
          show countRecordWrites stF.trace
            = 1 * (env.inputNames.filter globMatch).length
          rw [htr2, countRecordWrites_append, hcount hk]
          show (0 : Nat) + 1 * (env.inputNames.filter globMatch).length
            = 1 * (env.inputNames.filter globMatch).length
          omega
        · intro hk
          rcases herr Err.fileNotFound hk with h1 | h1 | h1 <;> cases h1

/-! ## C3 amended — record count over the glob matches -/

/-- C3 amended: a run processes exactly the top-level names matched by
glob *.* (containing a period and not starting with one); a completed run
leaves twice that many record files after a Managed run and that many
after a FilePath run.  Top-level files without a period are skipped
entirely (see the counterexample). -/
theorem c3_record_count (env : Env) (fuel : Nat)
    (hok : (run fuel env).result = .ok ()) :
    countRecordWrites (run fuel env).trace
      = (match env.linkType with | .managed => 2 | .file => 1)
          * (env.inputNames.filter globMatch).length :=
  (run_spec env fuel (fun _ => True) trivial (fun _ _ => trivial)
    (fun _ _ => trivial) (fun _ => trivial) (fun _ _ => trivial)).2.2.1 hok

/-- C3 witness: a managed run over one matching file writes two records. -/
theorem c3_record_count_witness :
    countRecordWrites (run 2 envC3w).trace
      = (match envC3w.linkType with | LinkType.managed => 2 | LinkType.file => 1)
          * (envC3w.inputNames.filter globMatch).length :=
  c3_record_count envC3w 2 (by decide)

/-! ## C7 amended — manifest error behavior -/

/-- C7 amended: a FilePath run with a missing manifest file fails
immediately with the unhandled FileNotFoundError; manifest lines are never
validated at parse time, so a line without a comma leads to an IndexError
only once the first file is processed (and to no error at all when no
input file matches, see the counterexample); Managed mode never reads the
manifest and cannot fail with the missing-manifest error. -/
theorem c7_manifest_errors (env : Env) (fuel : Nat) :
    (env.linkType = .file → env.manifest = none →
      (run fuel env).result = Except.error Err.fileNotFound)
    ∧ (env.linkType = .managed →
        (run fuel env).result ≠ Except.error Err.fileNotFound)
    ∧ (run 2 envC7b).result = Except.error Err.indexError := by
  refine ⟨?_, ?_, by decide⟩
  · intro hmode hmani
    simp only [run]
    rw [hmode, hmani]
  · intro hmode hres
    have hfc := (run_spec env fuel (fun _ => True) trivial (fun _ _ => trivial)
      (fun _ _ => trivial) (fun _ => trivial) (fun _ _ => trivial)).2.2.2 hres
    rw [hmode] at hfc
    cases hfc.1

/-- C7 witness: a file-mode run with a missing manifest file fails with
the file-not-found error. -/
theorem c7_manifest_errors_witness :
    (run 1 envC7c).result = Except.error Err.fileNotFound :=
  (c7_manifest_errors envC7c 1).1 rfl rfl

/-! ## C8 — existing output directory stops the run untouched -/

/-- C8: when the fixed-name output directory already exists in the input
directory, the run performs no mutating operation at all and leaves the
file system unchanged, and — provided it does not die even earlier on a
missing manifest in file mode — it fails with the AssertionError guarding
the precondition. -/
theorem c8_precondition_guard (env : Env) (fuel : Nat) (hj : "joplin" ∈ env.fs) :
    (run fuel env).trace = []
    ∧ (run fuel env).fs = env.fs
    ∧ ((env.linkType = .file → env.manifest ≠ none) →
        (run fuel env).result = Except.error Err.precondition) := by
  cases hmode : env.linkType
  · have hrun : run fuel env = ⟨Except.error Err.precondition, [], [], env.fs⟩ := by
      simp only [run]
      rw [hmode]
      dsimp only
      rw [if_pos hj]
    rw [hrun]
    exact ⟨rfl, rfl, fun _ => rfl⟩
  · rcases hmani : env.manifest with _ | lines
    · have hrun : run fuel env = ⟨Except.error Err.fileNotFound, [], [], env.fs⟩ := by
        simp only [run]
        rw [hmode, hmani]
      rw [hrun]
      refine ⟨rfl, rfl, ?_⟩
      intro hcontra
      exact absurd rfl (hcontra rfl)
    · have hrun : run fuel env = ⟨Except.error Err.precondition, [], [], env.fs⟩ := by
        simp only [run]
        rw [hmode, hmani]
        dsimp only
        rw [if_pos hj]
      rw [hrun]
      exact ⟨rfl, rfl, fun _ => rfl⟩

/-- C8 witness: a second run over an input directory that already has the
output directory fails with the precondition error. -/
theorem c8_precondition_guard_witness :
    (run 1 envC8).result = Except.error Err.precondition :=
  (c8_precondition_guard envC8 1 (by decide)).2.2 (fun h => nomatch h)

/-! ## C10 — the note namespace directory is never touched -/

theorem nsTouched_head (ns p : String) (h1 : ns.data.head? = some '/')
    (h : NsTouched ns p) : p.data.head? = some '/' := by
  rcases h with rfl | hpre
  · exact h1
  · obtain ⟨t, ht⟩ := List.isPrefixOf_iff_prefix.mp hpre
    rw [← ht, data_append]
    cases hns : ns.data with
    | nil =>
      rw [hns] at h1
      cases h1
    | cons c cs =>
      rw [hns] at h1
      injection h1 with hc
      subst hc
      rfl

theorem not_nsTouched_of_okTarget (env : Env)
    (h1 : env.joplin_directory.data.head? = some '/')
    (h2 : ∀ n ∈ env.inputNames, n.data.head? ≠ some '/')
    (h3 : env.linkType = .file → ¬ NsTouched env.joplin_directory (firstDir env))
    (h4 : env.linkType = .file →
      (firstDir env ++ "/").data.isPrefixOf env.joplin_directory.data = false)
    (p : String) (hp : OkTarget env p) : ¬ NsTouched env.joplin_directory p := by
  intro hns
  have hhead := nsTouched_head _ _ h1 hns
  rcases hp with rfl | hjp | hin | ⟨hmode, hfd | hfdp⟩
  · exact absurd hhead (by decide)
  · obtain ⟨t, ht⟩ := List.isPrefixOf_iff_prefix.mp hjp
    rw [← ht] at hhead
    injection hhead with hx
    exact absurd hx (by decide)
  · exact h2 p hin hhead
  · refine h3 hmode ?_
    rw [← hfd]
    exact hns
  · rcases hns with rfl | hpre
    · rw [h4 hmode] at hfdp
      cases hfdp
    · have hA := List.isPrefixOf_iff_prefix.mp hpre
      have hB := List.isPrefixOf_iff_prefix.mp hfdp
      have eA : ((env.joplin_directory ++ "/").data).length
          = env.joplin_directory.data.length + 1 := by
        rw [data_append]
        simp
      have eB : ((firstDir env ++ "/").data).length
          = (firstDir env).data.length + 1 := by
        rw [data_append]
        simp
      rcases le_or_lt ((env.joplin_directory ++ "/").data).length
          ((firstDir env ++ "/").data).length with hle | hlt
      · have hAB := List.prefix_of_prefix_length_le hA hB hle
        rcases lt_or_ge ((env.joplin_directory ++ "/").data).length
            ((firstDir env ++ "/").data).length with hlt2 | hge
        · have hBfd : (firstDir env).data <+: ((firstDir env ++ "/").data) := by
            rw [data_append]
            exact List.prefix_append _ _
          have hlen2 : ((env.joplin_directory ++ "/").data).length
              ≤ (firstDir env).data.length := by
            omega
          have hAfd := List.prefix_of_prefix_length_le hAB hBfd hlen2
          exact h3 hmode (Or.inr (List.isPrefixOf_iff_prefix.mpr hAfd))
        · have heq : ((env.joplin_directory ++ "/").data)
              = ((firstDir env ++ "/").data) :=
            hAB.eq_of_length (Nat.le_antisymm hle hge)
          rw [data_append, data_append] at heq
          have hnsfd : env.joplin_directory.data = (firstDir env).data :=
            List.append_cancel_right heq
          exact h3 hmode (Or.inl (String.ext hnsfd.symm))
      · have hBA := List.prefix_of_prefix_length_le hB hA (Nat.le_of_lt hlt)
        have hnsA : env.joplin_directory.data
            <+: ((env.joplin_directory ++ "/").data) := by
          rw [data_append]
          exact List.prefix_append _ _
        have hlen3 : ((firstDir env ++ "/").data).length
            ≤ env.joplin_directory.data.length := by
          omega
        have hBns := List.prefix_of_prefix_length_le hBA hnsA hlen3
        have hfin : (firstDir env ++ "/").data.isPrefixOf env.joplin_directory.data
            = true := List.isPrefixOf_iff_prefix.mpr hBns
        rw [h4 hmode] at hfin
        cases hfin

theorem applyOps_no_touch (q : String) :
    ∀ (ops : List Op) (fs : List String),
      (∀ op ∈ ops, ∀ p ∈ mutTargets op, p ≠ q) →
      (q ∈ applyOps fs ops ↔ q ∈ fs) := by
  intro ops
  induction ops with
  | nil =>
    intro fs _
    exact Iff.rfl
  | cons op rest ih =>
    intro fs h
    have hop := h op (List.mem_cons_self op rest)
    have hrest : ∀ o ∈ rest, ∀ p ∈ mutTargets o, p ≠ q :=
      fun o ho => h o (List.mem_cons_of_mem op ho)
    show q ∈ applyOps (applyOp fs op) rest ↔ q ∈ fs
    rw [ih (applyOp fs op) hrest]
    cases op with
    | mkdir p =>
      have hpq : p ≠ q := hop p (List.mem_singleton.mpr rfl)
      show q ∈ p :: fs ↔ q ∈ fs
      rw [List.mem_cons]
      constructor
      · rintro (rfl | hq2)
        · exact absurd rfl hpq
        · exact hq2
      · exact fun hq2 => Or.inr hq2
    | writeFile p c =>
      have hpq : p ≠ q := hop p (List.mem_singleton.mpr rfl)
      show q ∈ p :: fs ↔ q ∈ fs
      rw [List.mem_cons]
      constructor
      · rintro (rfl | hq2)
        · exact absurd rfl hpq
        · exact hq2
      · exact fun hq2 => Or.inr hq2
    | move src dst =>
      have hsq : src ≠ q := hop src (List.mem_cons_self _ _)
      have hdq : dst ≠ q := hop dst (List.mem_cons_of_mem _ (List.mem_singleton.mpr rfl))
      show q ∈ dst :: fs.erase src ↔ q ∈ fs
      rw [List.mem_cons]
      constructor
      · rintro (rfl | hq2)
        · exact absurd rfl hdq
        · exact (List.mem_erase_of_ne (fun hqs => hsq hqs.symm)).mp hq2
      · intro hq2
        exact Or.inr ((List.mem_erase_of_ne (fun hqs => hsq hqs.symm)).mpr hq2)

/-- C10: in either mode, no mutating operation of a run ever targets the
note namespace directory or a path inside it, and membership of any
namespace path in the file system is exactly what it was before the run —
provided the namespace directory is an absolute path, the input files are
relative names, and (in file mode) the first manifest directory does not
alias the namespace. -/
theorem c10_frame (env : Env) (fuel : Nat)
    (h1 : env.joplin_directory.data.head? = some '/')
    (h2 : ∀ n ∈ env.inputNames, n.data.head? ≠ some '/')
    (h3 : env.linkType = .file → ¬ NsTouched env.joplin_directory (firstDir env))
    (h4 : env.linkType = .file →
      (firstDir env ++ "/").data.isPrefixOf env.joplin_directory.data = false) :
    (∀ op ∈ (run fuel env).trace, ∀ p ∈ mutTargets op,
        ¬ NsTouched env.joplin_directory p)
    ∧ ∀ q : String, NsTouched env.joplin_directory q →
        ((q ∈ (run fuel env).fs) ↔ q ∈ env.fs) := by
  obtain ⟨htarg, hfs, -, -⟩ :=
    run_spec env fuel (OkTarget env) (Or.inl rfl)
      (fun p hp => Or.inr (Or.inl hp))
      (fun f hf => Or.inr (Or.inr (Or.inl hf)))
      (fun hm => Or.inr (Or.inr (Or.inr ⟨hm, Or.inl rfl⟩)))
      (fun x hm => Or.inr (Or.inr (Or.inr ⟨hm, Or.inr (by
        rw [data_append]
        exact isPrefixOf_append_self _ _)⟩)))
  constructor
  · intro op hop p hp
    exact not_nsTouched_of_okTarget env h1 h2 h3 h4 p (htarg op hop p hp)
  · intro q hq
    rw [hfs]
    apply applyOps_no_touch
    intro op hop p hp hpq
    refine not_nsTouched_of_okTarget env h1 h2 h3 h4 p (htarg op hop p hp) ?_
    rw [hpq]
    exact hq

/-- C10 witness: a pre-existing namespace record file is still exactly
there after a managed run. -/
theorem c10_frame_witness :
    ("/ns/x.md" ∈ (run 2 envC10).fs) ↔ "/ns/x.md" ∈ envC10.fs :=
  (c10_frame envC10 2 (by decide) (by decide) (fun hm => nomatch hm)
    (fun hm => nomatch hm)).2 "/ns/x.md" (Or.inr (by decide))

end Files2Joplin
